import Mathlib

/-!
Verification of the chat relay `app.py` (waready/chat-fastapi).

The file shallowly embeds the program:
* `Json`, `parseJson`, `dumps` model the JSON values the store file holds,
  `json.loads`, and `json.dumps(..., ensure_ascii=False, indent=2)`;
* `FS` models the two file paths (`chat.json` and `chat.json.tmp`); a `db`
  field of `none` models a missing or unreadable store file;
* `save_messages`, `load_messages`, `append_message`, `is_user_message`,
  `get_messages`, `broadcast` and the `ws_chat` loop steps are translated
  from the source, keeping the source's names;
* send failures and the wall clock are environment inputs (`sendOk`, `ts`).
-/

/-- A JSON value, as produced by `json.loads`.  Numbers keep their source
lexeme (the store never does arithmetic on them); objects keep their
key/value pairs in source order, mirroring Python's insertion-ordered
dicts. -/
inductive Json where
  | null
  | b (v : Bool)
  | num (lexeme : String)
  | str (value : String)
  | arr (items : List Json)
  | obj (fields : List (String × Json))

/-- JSON structural whitespace (the set accepted between tokens by
Python's `json` module). -/
def isJsonWs (c : Char) : Bool := c = ' ' || c = '\t' || c = '\n' || c = '\r'

def skipWs (cs : List Char) : List Char := cs.dropWhile isJsonWs

/-- Consume an expected literal character sequence. -/
def expectChars : List Char → List Char → Option (List Char)
  | [], cs => some cs
  | _ :: _, [] => none
  | e :: es, c :: cs => if c = e then expectChars es cs else none

def hexVal (c : Char) : Option Nat :=
  if 48 ≤ c.toNat ∧ c.toNat ≤ 57 then some (c.toNat - 48)
  else if 97 ≤ c.toNat ∧ c.toNat ≤ 102 then some (c.toNat - 87)
  else if 65 ≤ c.toNat ∧ c.toNat ≤ 70 then some (c.toNat - 55)
  else none

def hex4 (c1 c2 c3 c4 : Char) : Option Nat :=
  match hexVal c1, hexVal c2, hexVal c3, hexVal c4 with
  | some x, some y, some z, some w => some (4096 * x + 256 * y + 16 * z + w)
  | _, _, _, _ => none

def unescapeSimple (c : Char) : Option Char :=
  if c = '"' then some '"'
  else if c = '\\' then some '\\'
  else if c = '/' then some '/'
  else if c = 'b' then some '\x08'
  else if c = 'f' then some '\x0c'
  else if c = 'n' then some '\n'
  else if c = 'r' then some '\r'
  else if c = 't' then some '\t'
  else none

/-- Body of a JSON string after the opening quote, as decoded by
`json.loads` (strict mode): raw control characters are rejected, the
eight simple escapes and `\uXXXX` are decoded, and a surrogate pair is
combined.  A lone surrogate — representable in a Python `str` but not in
a Lean `String` — is approximated by U+FFFD (parsing still succeeds,
matching Python).  Every step consumes at least one character, so a fuel
of `length + 1` (what the callers pass) never runs out. -/
def parseStringBody : Nat → List Char → Option (List Char × List Char)
  | 0, _ => none
  | _ + 1, [] => none
  | fuel + 1, c :: rest =>
    if c = '"' then some ([], rest)
    else if c = '\\' then
      match rest with
      | [] => none
      | e :: r =>
        if e = 'u' then
          match r with
          | h1 :: h2 :: h3 :: h4 :: r2 =>
            match hex4 h1 h2 h3 h4 with
            | none => none
            | some n =>
              if 0xD800 ≤ n ∧ n < 0xDC00 then
                match r2 with
                | e2 :: u2 :: g1 :: g2 :: g3 :: g4 :: r3 =>
                  if e2 = '\\' then
                    if u2 = 'u' then
                      match hex4 g1 g2 g3 g4 with
                      | none => none
                      | some m =>
                        if 0xDC00 ≤ m ∧ m < 0xE000 then
                          (parseStringBody fuel r3).map
                            (fun p => (Char.ofNat (0x10000 + 1024 * (n - 0xD800) + (m - 0xDC00)) :: p.1, p.2))
                        else
                          (parseStringBody fuel (e2 :: u2 :: g1 :: g2 :: g3 :: g4 :: r3)).map
                            (fun p => (Char.ofNat 0xFFFD :: p.1, p.2))
                    else
                      (parseStringBody fuel (e2 :: u2 :: g1 :: g2 :: g3 :: g4 :: r3)).map
                        (fun p => (Char.ofNat 0xFFFD :: p.1, p.2))
                  else
                    (parseStringBody fuel (e2 :: u2 :: g1 :: g2 :: g3 :: g4 :: r3)).map
                      (fun p => (Char.ofNat 0xFFFD :: p.1, p.2))
                | _ => (parseStringBody fuel r2).map (fun p => (Char.ofNat 0xFFFD :: p.1, p.2))
              else if 0xDC00 ≤ n ∧ n < 0xE000 then
                (parseStringBody fuel r2).map (fun p => (Char.ofNat 0xFFFD :: p.1, p.2))
              else
                (parseStringBody fuel r2).map (fun p => (Char.ofNat n :: p.1, p.2))
          | _ => none
        else
          match unescapeSimple e with
          | some ch => (parseStringBody fuel r).map (fun p => (ch :: p.1, p.2))
          | none => none
    else if c.toNat < 32 then none
    else (parseStringBody fuel rest).map (fun p => (c :: p.1, p.2))

def spanDigits (cs : List Char) : List Char × List Char :=
  (cs.takeWhile Char.isDigit, cs.dropWhile Char.isDigit)

/-- Optional fraction part `.digits` (consumed only when well-formed,
like the regex used by Python's scanner). -/
def parseFrac (cs : List Char) : List Char × List Char :=
  match cs with
  | c :: r =>
    if c = '.' then
      match r with
      | d :: _ =>
        if d.isDigit then
          let p := spanDigits r
          ('.' :: p.1, p.2)
        else ([], cs)
      | [] => ([], cs)
    else ([], cs)
  | [] => ([], cs)

/-- Optional exponent part `e[+-]digits`. -/
def parseExp (cs : List Char) : List Char × List Char :=
  match cs with
  | c :: r =>
    if c = 'e' ∨ c = 'E' then
      match r with
      | s :: r2 =>
        if s = '+' ∨ s = '-' then
          match r2 with
          | d :: _ =>
            if d.isDigit then
              let p := spanDigits r2
              (c :: s :: p.1, p.2)
            else ([], cs)
          | [] => ([], cs)
        else if s.isDigit then
          let p := spanDigits r
          (c :: p.1, p.2)
        else ([], cs)
      | [] => ([], cs)
    else ([], cs)
  | [] => ([], cs)

/-- Unsigned JSON number: `0` or a nonzero-led digit run, then optional
fraction and exponent. -/
def parseNumMain (cs : List Char) : Option (List Char × List Char) :=
  match cs with
  | [] => none
  | c :: rest =>
    if c = '0' then
      let f := parseFrac rest
      let e := parseExp f.2
      some ('0' :: (f.1 ++ e.1), e.2)
    else if c.isDigit then
      let ds := spanDigits rest
      let f := parseFrac ds.2
      let e := parseExp f.2
      some (c :: (ds.1 ++ (f.1 ++ e.1)), e.2)
    else none

/-- A JSON number token, including the `NaN`/`Infinity`/`-Infinity`
constants that `json.loads` accepts by default. -/
def parseNumber (cs : List Char) : Option (List Char × List Char) :=
  match cs with
  | [] => none
  | c :: rest =>
    if c = 'N' then (expectChars ['a', 'N'] rest).map (fun r => (['N', 'a', 'N'], r))
    else if c = 'I' then
      (expectChars ['n', 'f', 'i', 'n', 'i', 't', 'y'] rest).map
        (fun r => (['I', 'n', 'f', 'i', 'n', 'i', 't', 'y'], r))
    else if c = '-' then
      match rest with
      | [] => none
      | c2 :: rest2 =>
        if c2 = 'I' then
          (expectChars ['n', 'f', 'i', 'n', 'i', 't', 'y'] rest2).map
            (fun r => (['-', 'I', 'n', 'f', 'i', 'n', 'i', 't', 'y'], r))
        else (parseNumMain (c2 :: rest2)).map (fun p => ('-' :: p.1, p.2))
    else parseNumMain cs

mutual

/-- One JSON value, mirroring Python's scanner: leading whitespace is
skipped, then the first character selects the production.  `fuel`
strictly decreases on every recursive call; `parseJson` supplies enough
for any input. -/
def parseVal : Nat → List Char → Option (Json × List Char)
  | 0, _ => none
  | fuel + 1, cs =>
    match skipWs cs with
    | [] => none
    | c :: rest =>
      if c = 'n' then (expectChars ['u', 'l', 'l'] rest).map (fun r => (Json.null, r))
      else if c = 't' then (expectChars ['r', 'u', 'e'] rest).map (fun r => (Json.b true, r))
      else if c = 'f' then (expectChars ['a', 'l', 's', 'e'] rest).map (fun r => (Json.b false, r))
      else if c = '"' then
        (parseStringBody (rest.length + 1) rest).map (fun p => (Json.str ⟨p.1⟩, p.2))
      else if c = '[' then
        match skipWs rest with
        | [] => none
        | c2 :: r2 =>
          if c2 = ']' then some (Json.arr [], r2)
          else (parseElems fuel rest).map (fun p => (Json.arr p.1, p.2))
      else if c = '\x7b' then
        match skipWs rest with
        | [] => none
        | c2 :: r2 =>
          if c2 = '\x7d' then some (Json.obj [], r2)
          else (parseMembers fuel rest).map (fun p => (Json.obj p.1, p.2))
      else (parseNumber (c :: rest)).map (fun p => (Json.num ⟨p.1⟩, p.2))

/-- One or more comma-separated array elements followed by `]`. -/
def parseElems : Nat → List Char → Option (List Json × List Char)
  | 0, _ => none
  | fuel + 1, cs =>
    match parseVal fuel cs with
    | none => none
    | some (v, cs1) =>
      match skipWs cs1 with
      | [] => none
      | c :: cs2 =>
        if c = ',' then
          match parseElems fuel cs2 with
          | none => none
          | some (vs, cs3) => some (v :: vs, cs3)
        else if c = ']' then some ([v], cs2)
        else none

/-- One or more comma-separated `"key": value` members followed by the
closing brace. -/
def parseMembers : Nat → List Char → Option (List (String × Json) × List Char)
  | 0, _ => none
  | fuel + 1, cs =>
    match skipWs cs with
    | [] => none
    | c :: cs1 =>
      if c = '"' then
        match parseStringBody (cs1.length + 1) cs1 with
        | none => none
        | some (k, cs2) =>
          match skipWs cs2 with
          | [] => none
          | c2 :: cs3 =>
            if c2 = ':' then
              match parseVal fuel cs3 with
              | none => none
              | some (v, cs4) =>
                match skipWs cs4 with
                | [] => none
                | c3 :: cs5 =>
                  if c3 = ',' then
                    match parseMembers fuel cs5 with
                    | none => none
                    | some (ms, cs6) => some ((⟨k⟩, v) :: ms, cs6)
                  else if c3 = '\x7d' then some ([(⟨k⟩, v)], cs5)
                  else none
            else none
      else none

end

/-- Model of `json.loads`: parse one value and require only trailing
whitespace after it; `none` models the call raising. -/
def parseJson (s : String) : Option Json :=
  match parseVal (s.length + 1) s.data with
  | none => none
  | some (j, rest) => if skipWs rest = [] then some j else none

/-- The character set stripped by Python's `str.strip()` (the code calls
`.strip()` on file contents and on every received line). -/
def pyIsSpace (c : Char) : Bool :=
  [' ', '\t', '\n', '\r', '\x0b', '\x0c', '\x1c', '\x1d', '\x1e', '\x1f',
    '\x85', '\xa0', ' ', ' ', ' ', ' ', ' ', ' ',
    ' ', ' ', ' ', ' ', ' ', ' ', ' ',
    ' ', ' ', ' ', '　'].contains c

/-- Model of Python's `str.strip()`. -/
def pyStrip (s : String) : String :=
  ⟨((s.data.dropWhile pyIsSpace).reverse.dropWhile pyIsSpace).reverse⟩

/-! ### `json.dumps(..., ensure_ascii=False, indent=2)` -/

/-- Indentation prefix at nesting depth `d` (two spaces per level). -/
def jsonPad (d : Nat) : List Char := List.replicate (2 * d) ' '

def hexDigit (k : Nat) : Char :=
  if k < 10 then Char.ofNat (48 + k) else Char.ofNat (87 + k)

/-- Escaping of one character inside a dumped string with
`ensure_ascii=False`: only the quote, backslash and control characters
are escaped; everything else is written raw. -/
def escChar (c : Char) : List Char :=
  if c = '"' then ['\\', '"']
  else if c = '\\' then ['\\', '\\']
  else if c = '\n' then ['\\', 'n']
  else if c = '\t' then ['\\', 't']
  else if c = '\r' then ['\\', 'r']
  else if c = '\x08' then ['\\', 'b']
  else if c = '\x0c' then ['\\', 'f']
  else if c.toNat < 32 then ['\\', 'u', '0', '0', hexDigit (c.toNat / 16), hexDigit (c.toNat % 16)]
  else [c]

def escapeList : List Char → List Char
  | [] => []
  | c :: cs => escChar c ++ escapeList cs

def renderString (s : String) : List Char := '"' :: (escapeList s.data ++ ['"'])

mutual

/-- Rendering of one JSON value at depth `d`, following `json.dumps` with
`indent=2`: empty containers are inline, non-empty ones put each item on
its own indented line, items separated by `,` and a newline, keys
followed by `: `. -/
def renderV : Json → Nat → List Char
  | Json.null, _ => ['n', 'u', 'l', 'l']
  | Json.b true, _ => ['t', 'r', 'u', 'e']
  | Json.b false, _ => ['f', 'a', 'l', 's', 'e']
  | Json.num lexeme, _ => lexeme.data
  | Json.str s, _ => renderString s
  | Json.arr [], _ => ['[', ']']
  | Json.arr (j :: js), d =>
    '[' :: '\n' :: (renderElems (j :: js) (d + 1) ++ ('\n' :: (jsonPad d ++ [']'])))
  | Json.obj [], _ => ['\x7b', '\x7d']
  | Json.obj (m :: ms), d =>
    '\x7b' :: '\n' :: (renderMembers (m :: ms) (d + 1) ++ ('\n' :: (jsonPad d ++ ['\x7d'])))

def renderElems : List Json → Nat → List Char
  | [], _ => []
  | [j], d => jsonPad d ++ renderV j d
  | j :: j2 :: js, d =>
    jsonPad d ++ (renderV j d ++ (',' :: '\n' :: renderElems (j2 :: js) d))

def renderMembers : List (String × Json) → Nat → List Char
  | [], _ => []
  | [(k, v)], d => jsonPad d ++ (renderString k ++ (':' :: ' ' :: renderV v d))
  | (k, v) :: m2 :: ms, d =>
    jsonPad d ++ (renderString k ++ (':' :: ' ' :: (renderV v d ++ (',' :: '\n' :: renderMembers (m2 :: ms) d))))

end

/-- Model of `json.dumps(messages, ensure_ascii=False, indent=2)` as the
source applies it: the argument is always a list. -/
def dumps (messages : List Json) : String := ⟨renderV (Json.arr messages) 0⟩

/-! ### The store file pair (`DB_FILE` and `TMP_FILE`) -/

/-- Contents of the two paths the program touches.  `db = none` models a
missing (or unreadable) `chat.json`; `tmp` is the sibling
`chat.json.tmp` written by `save_messages` before the rename. -/
structure FS where
  db : Option String
  tmp : Option String
deriving DecidableEq

/-- `save_messages`: write the full serialization to the temporary path,
then `os.replace` the temporary file over the real store path (the
temporary path ceases to exist). -/
def save_messages (fs : FS) (messages : List Json) : FS :=
  let fs1 : FS := { fs with tmp := some (dumps messages) }
  { db := fs1.tmp, tmp := none }

/-- The store-file states visible to a reader while `save_messages`
runs: the write to the temporary path proceeds prefix by prefix, and the
single `os.replace` step switches the real path to the full
serialization. -/
def save_states (fs : FS) (messages : List Json) : List FS :=
  ((List.range ((dumps messages).length + 1)).map
    (fun k => { fs with tmp := some ⟨(dumps messages).data.take k⟩ })) ++
    [save_messages fs messages]

/-- `load_messages`: read and strip the store file, return `[]` for
empty content, parse otherwise; on a read failure or a parse failure,
self-heal by saving an empty array and return `[]`.  The returned value
is whatever `json.loads` produced (the annotation `List[dict]` is not
enforced by Python). -/
def load_messages (fs : FS) : FS × Json :=
  match fs.db with
  | none => (save_messages fs [], Json.arr [])
  | some content =>
    let data := pyStrip content
    if data = "" then (fs, Json.arr [])
    else
      match parseJson data with
      | some j => (fs, j)
      | none => (save_messages fs [], Json.arr [])

/-- `append_message`: load the full log, push the record, save the full
log.  `none` models the uncaught exception raised when the loaded value
is not a list (`msgs.append` fails); in that case the read did not
modify the store. -/
def append_message (fs : FS) (record : Json) : Option FS :=
  match load_messages fs with
  | (fs1, Json.arr js) => some (save_messages fs1 (js ++ [record]))
  | _ => none

/-- Sequential non-overlapping `append_message` calls. -/
def appendAll (fs : FS) (records : List Json) : Option FS :=
  records.foldlM append_message fs

/-- `is_user_message`: `bool(texto and texto.startswith("[") and "]" in
texto)` — the string is truthy (nonempty), its first character is `[`,
and `]` occurs somewhere in it.  Stated over the character sequence so
that it evaluates in the kernel. -/
def is_user_message (texto : String) : Bool :=
  !texto.data.isEmpty && texto.data.head? == some '[' && texto.data.contains ']'

/-! ### Registry state and broadcast -/

/-- A connection handle (`WebSocket` identity). -/
abbrev Conn := Nat

/-- `clientes[ws] = nombre`, insertion-ordered like a Python dict:
assignment overwrites in place or appends. -/
def dictSet (d : List (Conn × String)) (k : Conn) (v : String) : List (Conn × String) :=
  if d.any (fun p => p.1 = k) then d.map (fun p => if p.1 = k then (k, v) else p)
  else d ++ [(k, v)]

/-- `clientes.pop(ws, None)`: the remaining entries and the removed
value, if any. -/
def dictPop (d : List (Conn × String)) (k : Conn) : List (Conn × String) × Option String :=
  (d.filter (fun p => p.1 ≠ k), ((d.filter (fun p => p.1 = k)).getLast?).map Prod.snd)

/-- `m.get(key, default)` on a dict decoded from JSON (duplicate keys:
last wins, as in `json.loads`). -/
def dictGet : List (String × Json) → String → Json → Json
  | [], _, dflt => dflt
  | (k1, v) :: rest, k, dflt => dictGet rest k (if k1 = k then v else dflt)

/-- The whole mutable state of the process: the store files plus the
`clientes` registry. -/
structure World where
  fs : FS
  clientes : List (Conn × String)

/-- The snapshot `[ws for ws in clientes.keys() if ws is not omit]`. -/
def snapshotDests (clientes : List (Conn × String)) (omitConn : Option Conn) : List Conn :=
  (clientes.map Prod.fst).filter
    (fun ws => match omitConn with
      | none => true
      | some o => ws ≠ o)

/-- The record `broadcast` builds: `{"text": texto, "author": author or
"system", "ts": now_iso()}`.  The clock is an input. -/
def mkRecord (texto : String) (author : Option String) (ts : String) : Json :=
  Json.obj [("text", Json.str texto), ("author", Json.str (author.getD "system")), ("ts", Json.str ts)]

/-- Everything one `broadcast` call did: the final state, the record it
built, whether persistence succeeded, the destinations whose send was
attempted (in order), and those whose send raised. -/
structure BroadcastResult where
  world : World
  record : Json
  persisted : Bool
  attempted : List Conn
  fallen : List Conn

/-- `broadcast(texto, author, omit)`: build the record; try to append it
(a failure is caught and only printed); snapshot the destinations minus
`omit`; attempt every send, collecting the connections whose send raised
(`sendOk` is the environment's verdict per connection); if any send
failed, pop the failed connections from the registry.  The function is
total: no error propagates. -/
def broadcast (sendOk : Conn → Bool) (w : World) (texto : String)
    (author : Option String) (omitConn : Option Conn) (ts : String) : BroadcastResult :=
  let rcd := mkRecord texto author ts
  let step1 : FS × Bool :=
    match append_message w.fs rcd with
    | some fs2 => (fs2, true)
    | none => (w.fs, false)
  let dests := snapshotDests w.clientes omitConn
  let fallen := dests.filter (fun ws => !sendOk ws)
  let clientes1 :=
    if fallen.isEmpty then w.clientes
    else w.clientes.filter (fun p => !fallen.contains p.1)
  { world := { fs := step1.1, clientes := clientes1 },
    record := rcd, persisted := step1.2, attempted := dests, fallen := fallen }

/-! ### `ws_chat` session steps -/

/-- Handshake completion: register the (connection, name) pair, then
broadcast the join notice with author `"system"` and no `omit`. -/
def joinStep (sendOk : Conn → Bool) (w : World) (ws : Conn) (nombre : String)
    (ts : String) : World × BroadcastResult :=
  let w1 : World := { w with clientes := dictSet w.clientes ws nombre }
  let r := broadcast sendOk w1 ("🟢 " ++ nombre ++ " se unió al chat") (some "system") none ts
  (r.world, r)

/-- One iteration of the `ACTIVE` receive loop on inbound `line`: strip
it; an empty result is silently discarded (`none`: no broadcast, state
untouched); otherwise broadcast `"[<nombre>] <msg>"` with author
`nombre` and no `omit`. -/
def activeStep (sendOk : Conn → Bool) (w : World) (ws : Conn) (nombre : String)
    (line : String) (ts : String) : World × Option BroadcastResult :=
  let msg := pyStrip line
  if msg = "" then (w, none)
  else
    let r := broadcast sendOk w ("[" ++ nombre ++ "] " ++ msg) (some nombre) none ts
    (r.world, some r)

/-- Disconnect (the `finally` block): pop the connection; if it had a
registered name, broadcast the leave notice with author `"system"`,
omitting the departing connection. -/
def disconnectStep (sendOk : Conn → Bool) (w : World) (ws : Conn)
    (ts : String) : World × Option BroadcastResult :=
  let popped := dictPop w.clientes ws
  let w1 : World := { w with clientes := popped.1 }
  match popped.2 with
  | some aliasName =>
    let r := broadcast sendOk w1 ("🔴 " ++ aliasName ++ " salió del chat") (some "system") (some ws) ts
    (r.world, some r)
  | none => (w1, none)

/-! ### The history endpoint -/

/-- The JSON body `get_messages` returns. -/
structure GetResponse where
  total : Nat
  offset : Nat
  limit : Nat
  items : List Json

/-- `m.get("text", "")` — raises (`none`) when `m` is not a dict. -/
def textDefault (m : Json) : Option Json :=
  match m with
  | Json.obj d => some (dictGet d "text" (Json.str ""))
  | _ => none

/-- `is_user_message` applied to the value of `m.get("text", "")`.  Only
string values are modelled (`some`); a non-string `"text"` value makes
Python either raise or coerce by truthiness and is outside the model
(`none`), so no theorem below asserts anything about that case. -/
def isUserTextVal : Json → Option Bool
  | Json.str s => some (is_user_message s)
  | _ => none

/-- The comprehension `[m for m in msgs if is_user_message(m.get("text",
""))]`; `none` models it raising on some element. -/
def filterUserMsgs : List Json → Option (List Json)
  | [] => some []
  | m :: ms =>
    match textDefault m with
    | none => none
    | some t =>
      match isUserTextVal t with
      | none => none
      | some keep =>
        match filterUserMsgs ms with
        | none => none
        | some rest => some (if keep then m :: rest else rest)

/-- `get_messages(offset, limit, only_user)`: load the log, optionally
filter, count, slice `msgs[offset : offset + limit]`.  The `Query`
validation (`offset ≥ 0`, `1 ≤ limit ≤ 500`) happens before the handler
runs, so the arguments are already in range.  `none` in the second
component models an unhandled exception (non-list log, or an element the
filter cannot process). -/
def get_messages (fs : FS) (offset limit : Nat) (only_user : Bool) : FS × Option GetResponse :=
  match load_messages fs with
  | (fs1, Json.arr msgs) =>
    match (if only_user then filterUserMsgs msgs else some msgs) with
    | some ms =>
      (fs1, some { total := ms.length, offset := offset, limit := limit,
                   items := (ms.drop offset).take limit })
    | none => (fs1, none)
  | (fs1, _) => (fs1, none)

/-! ### Record-shaped values and the spec's filter predicate -/

/-- A flat JSON object all of whose values are strings — the shape of
every `ChatRecord` the system writes (and of malformed variants missing
keys). -/
def flatObj (m : Json) : Bool :=
  match m with
  | Json.obj kvs => kvs.all (fun kv => match kv.2 with | Json.str _ => true | _ => false)
  | _ => false

/-- A log whose entries are all record-shaped. -/
def recordList (l : List Json) : Bool := l.all flatObj

/-- Whether `get_messages` keeps record `m` under `only_user=true`
(total restatement of the filter on record-shaped logs). -/
def includeRec (m : Json) : Bool :=
  match m with
  | Json.obj d =>
    match dictGet d "text" (Json.str "") with
    | Json.str s => is_user_message s
    | _ => false
  | _ => false

/-- Modelled from the spec: the claim's filter shape — text matches
`^\[.*\].*` "with at least one character between `[` and the first `]`",
i.e. starts with `[`, contains a later `]`, and the first `]` does not
immediately follow the `[`. -/
def specUserMessage (s : String) : Bool :=
  match s.data with
  | '[' :: rest => !(rest.takeWhile (fun c => c != ']')).isEmpty && rest.contains ']'
  | _ => false

/-! ### Helper lemmas: whitespace and literals -/

theorem skipWs_cons_of_ws (c : Char) (cs : List Char) (h : isJsonWs c = true) :
    skipWs (c :: cs) = skipWs cs := by
  simp [skipWs, List.dropWhile_cons, h]

theorem skipWs_cons_of_not_ws (c : Char) (cs : List Char) (h : isJsonWs c = false) :
    skipWs (c :: cs) = c :: cs := by
  simp [skipWs, List.dropWhile_cons, h]

theorem skipWs_replicate_space (n : Nat) (cs : List Char) :
    skipWs (List.replicate n ' ' ++ cs) = skipWs cs := by
  induction n with
  | zero => simp
  | succ k ih =>
    rw [List.replicate_succ, List.cons_append, skipWs_cons_of_ws _ _ (by decide)]
    exact ih

theorem skipWs_pad (d : Nat) (cs : List Char) : skipWs (jsonPad d ++ cs) = skipWs cs := by
  simpa [jsonPad] using skipWs_replicate_space (2 * d) cs

theorem expectChars_append (lit cs : List Char) : expectChars lit (lit ++ cs) = some cs := by
  induction lit with
  | nil => simp [expectChars]
  | cons e es ih => simp [expectChars, ih]

theorem string_mk_data (s : String) : (⟨s.data⟩ : String) = s := rfl

/-! ### Helper lemmas: string escaping round-trip -/

theorem hexVal_hexDigit : ∀ k, k < 16 → hexVal (hexDigit k) = some k := by decide

theorem escChar_length_pos (c : Char) : 0 < (escChar c).length := by
  unfold escChar; split_ifs <;> simp

theorem escapeList_length_ge (cs : List Char) : cs.length ≤ (escapeList cs).length := by
  induction cs with
  | nil => simp [escapeList]
  | cons c cs ih =>
    have := escChar_length_pos c
    simp only [escapeList, List.length_append, List.length_cons]
    omega

theorem hex4_control (t : Nat) (h : t < 32) :
    hex4 '0' '0' (hexDigit (t / 16)) (hexDigit (t % 16)) = some t := by
  have h1 : hexVal (hexDigit (t / 16)) = some (t / 16) := hexVal_hexDigit _ (by omega)
  have h2 : hexVal (hexDigit (t % 16)) = some (t % 16) := hexVal_hexDigit _ (by omega)
  have h0 : hexVal '0' = some 0 := by decide
  simp [hex4, h0, h1, h2]
  omega

theorem parseStringBody_escape :
    ∀ (cs : List Char) (fuel : Nat) (rest : List Char), cs.length < fuel →
      parseStringBody fuel (escapeList cs ++ ('"' :: rest)) = some (cs, rest) := by
  intro cs
  induction cs with
  | nil =>
    intro fuel rest h
    obtain ⟨f, rfl⟩ : ∃ f, fuel = f + 1 := ⟨fuel - 1, by omega⟩
    simp [escapeList, parseStringBody]
  | cons c cs ih =>
    intro fuel rest h
    obtain ⟨f, rfl⟩ : ∃ f, fuel = f + 1 := ⟨fuel - 1, by omega⟩
    have hf : cs.length < f := by
      simp only [List.length_cons] at h
      omega
    have ihx := ih f rest hf
    by_cases h1 : c = '"'
    · subst h1
      simp [escapeList, escChar, parseStringBody, unescapeSimple, ihx]
    · by_cases h2 : c = '\\'
      · subst h2
        simp [escapeList, escChar, parseStringBody, unescapeSimple, ihx]
      · by_cases h3 : c = '\n'
        · subst h3
          simp [escapeList, escChar, parseStringBody, unescapeSimple, ihx]
        · by_cases h4 : c = '\t'
          · subst h4
            simp [escapeList, escChar, parseStringBody, unescapeSimple, ihx]
          · by_cases h5 : c = '\r'
            · subst h5
              simp [escapeList, escChar, parseStringBody, unescapeSimple, ihx]
            · by_cases h6 : c = '\x08'
              · subst h6
                simp [escapeList, escChar, parseStringBody, unescapeSimple, ihx]
              · by_cases h7 : c = '\x0c'
                · subst h7
                  simp [escapeList, escChar, parseStringBody, unescapeSimple, ihx]
                · by_cases h8 : c.toNat < 32
                  · have hesc : escChar c =
                        ['\\', 'u', '0', '0', hexDigit (c.toNat / 16), hexDigit (c.toNat % 16)] := by
                      simp [escChar, h1, h2, h3, h4, h5, h6, h7, h8]
                    simp only [escapeList]
                    rw [hesc]
                    simp only [List.cons_append, List.nil_append]
                    rw [parseStringBody]
                    simp only [reduceIte, hex4_control c.toNat h8]
                    rw [if_neg (show ¬(55296 ≤ c.toNat ∧ c.toNat < 56320) by omega),
                      if_neg (show ¬(56320 ≤ c.toNat ∧ c.toNat < 57344) by omega), ihx]
                    simp [Char.ofNat_toNat]
                  · have hesc : escChar c = [c] := by
                      simp [escChar, h1, h2, h3, h4, h5, h6, h7, h8]
                    simp only [escapeList]
                    rw [hesc]
                    simp only [List.cons_append, List.nil_append]
                    simp [parseStringBody, h1, h2, h8, ihx]

/-! ### Helper lemmas: parsing rendered values -/

theorem parseVal_skip (fuel : Nat) (a b : List Char) (h : skipWs a = skipWs b) :
    parseVal fuel a = parseVal fuel b := by
  cases fuel with
  | zero => rfl
  | succ f =>
    simp only [parseVal]
    rw [h]

theorem parseElems_skip (fuel : Nat) (a b : List Char) (h : skipWs a = skipWs b) :
    parseElems fuel a = parseElems fuel b := by
  cases fuel with
  | zero => rfl
  | succ f =>
    simp only [parseElems]
    rw [parseVal_skip f a b h]

theorem parseMembers_skip (fuel : Nat) (a b : List Char) (h : skipWs a = skipWs b) :
    parseMembers fuel a = parseMembers fuel b := by
  cases fuel with
  | zero => rfl
  | succ f =>
    simp only [parseMembers]
    rw [h]

theorem parseVal_render_str (f : Nat) (s : String) (d : Nat) (rest : List Char) :
    parseVal (f + 1) (renderV (Json.str s) d ++ rest) = some (Json.str s, rest) := by
  have hin : renderV (Json.str s) d ++ rest = '"' :: (escapeList s.data ++ ('"' :: rest)) := by
    simp [renderV, renderString]
  rw [hin]
  simp only [parseVal]
  rw [skipWs_cons_of_not_ws _ _ (by decide)]
  simp only [reduceIte]
  rw [parseStringBody_escape s.data _ rest (by
    have := escapeList_length_ge s.data
    simp only [List.length_append, List.length_cons]
    omega)]
  simp [string_mk_data]

theorem skipWs_close_brace (dd : Nat) (rest : List Char) :
    skipWs ('\n' :: (jsonPad dd ++ ('\x7d' :: rest))) = '\x7d' :: rest := by
  rw [skipWs_cons_of_ws _ _ (by decide), skipWs_pad, skipWs_cons_of_not_ws _ _ (by decide)]

theorem skipWs_close_bracket (dd : Nat) (rest : List Char) :
    skipWs ('\n' :: (jsonPad dd ++ (']' :: rest))) = ']' :: rest := by
  rw [skipWs_cons_of_ws _ _ (by decide), skipWs_pad, skipWs_cons_of_not_ws _ _ (by decide)]

theorem parseMembers_render :
    ∀ (ms : List (String × Json)) (fuel d dd : Nat) (rest : List Char),
      ms ≠ [] → flatObj (Json.obj ms) = true → ms.length < fuel →
      parseMembers fuel (renderMembers ms d ++ ('\n' :: (jsonPad dd ++ ('\x7d' :: rest)))) =
        some (ms, rest) := by
  intro ms
  induction ms with
  | nil => intro fuel d dd rest hne; exact absurd rfl hne
  | cons kv tail ih =>
    intro fuel d dd rest hne hall hfuel
    obtain ⟨k, v⟩ := kv
    obtain ⟨s, rfl⟩ : ∃ s, v = Json.str s := by
      cases v <;> simp_all [flatObj]
    obtain ⟨f, rfl⟩ : ∃ f, fuel = f + 1 := ⟨fuel - 1, by omega⟩
    have hf1 : 0 < f := by
      simp only [List.length_cons] at hfuel
      omega
    obtain ⟨f2, rfl⟩ : ∃ f2, f = f2 + 1 := ⟨f - 1, by omega⟩
    cases tail with
    | nil =>
      have hin : renderMembers [(k, Json.str s)] d ++ ('\n' :: (jsonPad dd ++ ('\x7d' :: rest))) =
          jsonPad d ++ ('"' :: (escapeList k.data ++ ('"' :: (':' :: ' ' ::
            (renderV (Json.str s) d ++ ('\n' :: (jsonPad dd ++ ('\x7d' :: rest)))))))) := by
        simp [renderMembers, renderString, List.append_assoc]
      rw [hin]
      rw [parseMembers]
      rw [skipWs_pad, skipWs_cons_of_not_ws _ _ (by decide)]
      simp only [reduceIte]
      rw [parseStringBody_escape k.data _ _ (by
        have := escapeList_length_ge k.data
        simp only [List.length_append, List.length_cons]
        omega)]
      dsimp only
      rw [skipWs_cons_of_not_ws _ _ (by decide)]
      simp only [reduceIte]
      rw [parseVal_skip _ _ (renderV (Json.str s) d ++ ('\n' :: (jsonPad dd ++ ('\x7d' :: rest))))
        (skipWs_cons_of_ws _ _ (by decide))]
      rw [parseVal_render_str]
      dsimp only
      rw [skipWs_close_brace]
      simp [string_mk_data]
    | cons m2 tl2 =>
      have hall2 : flatObj (Json.obj (m2 :: tl2)) = true := by
        simp only [flatObj, List.all_cons, Bool.and_eq_true] at hall ⊢
        exact hall.2
      have hfuel2 : (m2 :: tl2).length < f2 + 1 := by
        simp only [List.length_cons] at hfuel ⊢
        omega
      have hin : renderMembers ((k, Json.str s) :: m2 :: tl2) d ++
            ('\n' :: (jsonPad dd ++ ('\x7d' :: rest))) =
          jsonPad d ++ ('"' :: (escapeList k.data ++ ('"' :: (':' :: ' ' ::
            (renderV (Json.str s) d ++ (',' :: '\n' ::
              (renderMembers (m2 :: tl2) d ++ ('\n' :: (jsonPad dd ++ ('\x7d' :: rest)))))))))) := by
        simp [renderMembers, renderString, List.append_assoc]
      rw [hin]
      rw [parseMembers]
      rw [skipWs_pad, skipWs_cons_of_not_ws _ _ (by decide)]
      simp only [reduceIte]
      rw [parseStringBody_escape k.data _ _ (by
        have := escapeList_length_ge k.data
        simp only [List.length_append, List.length_cons]
        omega)]
      dsimp only
      rw [skipWs_cons_of_not_ws _ _ (by decide)]
      simp only [reduceIte]
      rw [parseVal_skip _ _ (renderV (Json.str s) d ++ (',' :: '\n' ::
        (renderMembers (m2 :: tl2) d ++ ('\n' :: (jsonPad dd ++ ('\x7d' :: rest))))))
        (skipWs_cons_of_ws _ _ (by decide))]
      rw [parseVal_render_str]
      dsimp only
      rw [skipWs_cons_of_not_ws _ _ (by decide)]
      simp only [reduceIte]
      rw [parseMembers_skip _ _ (renderMembers (m2 :: tl2) d ++
        ('\n' :: (jsonPad dd ++ ('\x7d' :: rest)))) (skipWs_cons_of_ws _ _ (by decide))]
      rw [ih (f2 + 1) d dd rest (by simp) hall2 hfuel2]

theorem renderString_length_ge (k : String) : 2 ≤ (renderString k).length := by
  simp [renderString]

theorem renderMembers_length_ge :
    ∀ (ms : List (String × Json)) (d : Nat), ms.length ≤ (renderMembers ms d).length := by
  intro ms
  induction ms with
  | nil => simp [renderMembers]
  | cons m tl ih =>
    intro d
    obtain ⟨k, v⟩ := m
    cases tl with
    | nil =>
      have := renderString_length_ge k
      simp only [renderMembers, List.length_append, List.length_cons, List.length_nil]
      omega
    | cons m2 tl2 =>
      have := renderString_length_ge k
      have h2 := ih d
      simp only [renderMembers, List.length_append, List.length_cons] at h2 ⊢
      omega

theorem renderV_obj_length (ms : List (String × Json)) (d : Nat) :
    ms.length + 2 ≤ (renderV (Json.obj ms) d).length := by
  cases ms with
  | nil => simp [renderV]
  | cons m tl =>
    have := renderMembers_length_ge (m :: tl) (d + 1)
    simp only [renderV, List.length_cons, List.length_append] at this ⊢
    omega

theorem renderV_obj_head (ms : List (String × Json)) (d : Nat) :
    ∃ X, renderV (Json.obj ms) d = '\x7b' :: X := by
  cases ms with
  | nil => exact ⟨['\x7d'], by simp [renderV]⟩
  | cons m tl =>
    exact ⟨'\n' :: (renderMembers (m :: tl) (d + 1) ++ ('\n' :: (jsonPad d ++ ['\x7d']))),
      by simp [renderV]⟩

theorem renderMembers_cons_shape (m : String × Json) (tl : List (String × Json)) (d : Nat)
    (Y : List Char) :
    ∃ X, renderMembers (m :: tl) d ++ Y = jsonPad d ++ ('"' :: X) := by
  obtain ⟨k, v⟩ := m
  cases tl with
  | nil =>
    exact ⟨escapeList k.data ++ ('"' :: (':' :: ' ' :: (renderV v d ++ Y))),
      by simp [renderMembers, renderString, List.append_assoc]⟩
  | cons m2 tl2 =>
    exact ⟨escapeList k.data ++ ('"' :: (':' :: ' ' :: (renderV v d ++
        (',' :: '\n' :: (renderMembers (m2 :: tl2) d ++ Y))))),
      by simp [renderMembers, renderString, List.append_assoc]⟩

theorem parseVal_render_obj (f : Nat) (ms : List (String × Json)) (d : Nat) (rest : List Char)
    (hall : flatObj (Json.obj ms) = true) (hfuel : ms.length < f) :
    parseVal (f + 1) (renderV (Json.obj ms) d ++ rest) = some (Json.obj ms, rest) := by
  cases ms with
  | nil =>
    have hin : renderV (Json.obj []) d ++ rest = '\x7b' :: ('\x7d' :: rest) := by
      simp [renderV]
    rw [hin]
    simp only [parseVal]
    rw [skipWs_cons_of_not_ws _ _ (by decide)]
    dsimp only
    rw [skipWs_cons_of_not_ws _ _ (by decide)]
    simp only [reduceIte]
    rw [if_neg (by decide : ¬('\x7b' : Char) = 'n'), if_neg (by decide : ¬('\x7b' : Char) = 't'),
      if_neg (by decide : ¬('\x7b' : Char) = 'f'), if_neg (by decide : ¬('\x7b' : Char) = '"'),
      if_neg (by decide : ¬('\x7b' : Char) = '[')]
  | cons m tl =>
    have hin : renderV (Json.obj (m :: tl)) d ++ rest =
        '\x7b' :: '\n' :: (renderMembers (m :: tl) (d + 1) ++
          ('\n' :: (jsonPad d ++ ('\x7d' :: rest)))) := by
      simp [renderV, List.append_assoc]
    rw [hin]
    simp only [parseVal]
    rw [skipWs_cons_of_not_ws _ _ (by decide)]
    simp only [reduceIte]
    obtain ⟨X, hX⟩ := renderMembers_cons_shape m tl (d + 1)
      ('\n' :: (jsonPad d ++ ('\x7d' :: rest)))
    have hskip : skipWs ('\n' :: (renderMembers (m :: tl) (d + 1) ++
        ('\n' :: (jsonPad d ++ ('\x7d' :: rest))))) = '"' :: X := by
      rw [skipWs_cons_of_ws _ _ (by decide), hX, skipWs_pad,
        skipWs_cons_of_not_ws _ _ (by decide)]
    rw [hskip]
    dsimp only
    rw [if_neg (by decide : ¬('"' : Char) = '\x7d')]
    rw [parseMembers_skip f _ (renderMembers (m :: tl) (d + 1) ++
      ('\n' :: (jsonPad d ++ ('\x7d' :: rest)))) (skipWs_cons_of_ws _ _ (by decide))]
    rw [parseMembers_render (m :: tl) f (d + 1) d rest (by simp) hall hfuel]
    rfl

theorem parseElems_render :
    ∀ (l : List Json) (fuel d dd : Nat) (rest : List Char),
      l ≠ [] → recordList l = true → (renderElems l d).length < fuel →
      parseElems fuel (renderElems l d ++ ('\n' :: (jsonPad dd ++ (']' :: rest)))) =
        some (l, rest) := by
  intro l
  induction l with
  | nil => intro fuel d dd rest hne; exact absurd rfl hne
  | cons j tl ih =>
    intro fuel d dd rest hne hrec hfuel
    have hflat : flatObj j = true := by
      simp only [recordList, List.all_cons, Bool.and_eq_true] at hrec
      exact hrec.1
    obtain ⟨ms, rfl⟩ : ∃ ms, j = Json.obj ms := by
      cases j <;> simp_all [flatObj]
    obtain ⟨f, rfl⟩ : ∃ f, fuel = f + 1 := ⟨fuel - 1, by omega⟩
    have hlen := renderV_obj_length ms d
    cases tl with
    | nil =>
      have hflen : ms.length + 2 ≤ f := by
        simp only [renderElems, List.length_append, jsonPad, List.length_replicate] at hfuel
        omega
      obtain ⟨f2, rfl⟩ : ∃ f2, f = f2 + 1 := ⟨f - 1, by omega⟩
      have hin : renderElems [Json.obj ms] d ++ ('\n' :: (jsonPad dd ++ (']' :: rest))) =
          jsonPad d ++ (renderV (Json.obj ms) d ++ ('\n' :: (jsonPad dd ++ (']' :: rest)))) := by
        simp [renderElems, List.append_assoc]
      rw [hin, parseElems]
      rw [parseVal_skip _ _ (renderV (Json.obj ms) d ++ ('\n' :: (jsonPad dd ++ (']' :: rest))))
        (by rw [skipWs_pad])]
      rw [parseVal_render_obj f2 ms d _ hflat (by omega)]
      dsimp only
      rw [skipWs_close_bracket]
      simp only [reduceIte]
      rw [if_neg (by decide : ¬(']' : Char) = ',')]
    | cons j2 tl2 =>
      have hrec2 : recordList (j2 :: tl2) = true := by
        simp only [recordList, List.all_cons, Bool.and_eq_true] at hrec
        simp [recordList, hrec.2.1, hrec.2.2]
      have hflen : ms.length + 2 ≤ f ∧ (renderElems (j2 :: tl2) d).length < f := by
        simp only [renderElems, List.length_append, List.length_cons, jsonPad,
          List.length_replicate] at hfuel
        omega
      obtain ⟨f2, rfl⟩ : ∃ f2, f = f2 + 1 := ⟨f - 1, by omega⟩
      have hin : renderElems (Json.obj ms :: j2 :: tl2) d ++
            ('\n' :: (jsonPad dd ++ (']' :: rest))) =
          jsonPad d ++ (renderV (Json.obj ms) d ++ (',' :: '\n' ::
            (renderElems (j2 :: tl2) d ++ ('\n' :: (jsonPad dd ++ (']' :: rest)))))) := by
        simp [renderElems, List.append_assoc]
      rw [hin, parseElems]
      rw [parseVal_skip _ _ (renderV (Json.obj ms) d ++ (',' :: '\n' ::
        (renderElems (j2 :: tl2) d ++ ('\n' :: (jsonPad dd ++ (']' :: rest))))))
        (by rw [skipWs_pad])]
      rw [parseVal_render_obj f2 ms d _ hflat (by omega)]
      dsimp only
      rw [skipWs_cons_of_not_ws _ _ (by decide)]
      simp only [reduceIte]
      rw [parseElems_skip _ _ (renderElems (j2 :: tl2) d ++
        ('\n' :: (jsonPad dd ++ (']' :: rest)))) (skipWs_cons_of_ws _ _ (by decide))]
      rw [ih (f2 + 1) d dd rest (by simp) hrec2 hflen.2]

theorem parseVal_render_arr (l : List Json) (fuel d : Nat) (rest : List Char)
    (hrec : recordList l = true) (hfuel : (renderV (Json.arr l) d).length ≤ fuel) :
    parseVal (fuel + 1) (renderV (Json.arr l) d ++ rest) = some (Json.arr l, rest) := by
  cases l with
  | nil =>
    have hin : renderV (Json.arr []) d ++ rest = '[' :: (']' :: rest) := by
      simp [renderV]
    rw [hin]
    simp only [parseVal]
    rw [skipWs_cons_of_not_ws _ _ (by decide)]
    dsimp only
    rw [skipWs_cons_of_not_ws _ _ (by decide)]
    simp only [reduceIte]
    rw [if_neg (by decide : ¬('[' : Char) = 'n'), if_neg (by decide : ¬('[' : Char) = 't'),
      if_neg (by decide : ¬('[' : Char) = 'f'), if_neg (by decide : ¬('[' : Char) = '"')]
  | cons j tl =>
    have hflat : flatObj j = true := by
      simp only [recordList, List.all_cons, Bool.and_eq_true] at hrec
      exact hrec.1
    obtain ⟨ms, rfl⟩ : ∃ ms, j = Json.obj ms := by
      cases j <;> simp_all [flatObj]
    have hin : renderV (Json.arr (Json.obj ms :: tl)) d ++ rest =
        '[' :: '\n' :: (renderElems (Json.obj ms :: tl) (d + 1) ++
          ('\n' :: (jsonPad d ++ (']' :: rest)))) := by
      simp [renderV, List.append_assoc]
    rw [hin]
    simp only [parseVal]
    rw [skipWs_cons_of_not_ws _ _ (by decide)]
    simp only [reduceIte]
    obtain ⟨X0, hX0⟩ := renderV_obj_head ms (d + 1)
    have hsh : renderElems (Json.obj ms :: tl) (d + 1) ++ ('\n' :: (jsonPad d ++ (']' :: rest))) =
        jsonPad (d + 1) ++ ('\x7b' :: (X0 ++ (if tl.isEmpty then [] else []) ++ [])) ∨ True := Or.inr trivial
    have hskip : ∃ Y, skipWs ('\n' :: (renderElems (Json.obj ms :: tl) (d + 1) ++
        ('\n' :: (jsonPad d ++ (']' :: rest))))) = '\x7b' :: Y := by
      cases tl with
      | nil =>
        refine ⟨X0 ++ ('\n' :: (jsonPad d ++ (']' :: rest))), ?_⟩
        rw [skipWs_cons_of_ws _ _ (by decide)]
        have : renderElems [Json.obj ms] (d + 1) ++ ('\n' :: (jsonPad d ++ (']' :: rest))) =
            jsonPad (d + 1) ++ ('\x7b' :: (X0 ++ ('\n' :: (jsonPad d ++ (']' :: rest))))) := by
          simp [renderElems, hX0, List.append_assoc]
        rw [this, skipWs_pad, skipWs_cons_of_not_ws _ _ (by decide)]
      | cons j2 tl2 =>
        refine ⟨X0 ++ (',' :: '\n' :: (renderElems (j2 :: tl2) (d + 1) ++
          ('\n' :: (jsonPad d ++ (']' :: rest))))), ?_⟩
        rw [skipWs_cons_of_ws _ _ (by decide)]
        have : renderElems (Json.obj ms :: j2 :: tl2) (d + 1) ++
              ('\n' :: (jsonPad d ++ (']' :: rest))) =
            jsonPad (d + 1) ++ ('\x7b' :: (X0 ++ (',' :: '\n' :: (renderElems (j2 :: tl2) (d + 1) ++
              ('\n' :: (jsonPad d ++ (']' :: rest))))))) := by
          simp [renderElems, hX0, List.append_assoc]
        rw [this, skipWs_pad, skipWs_cons_of_not_ws _ _ (by decide)]
    obtain ⟨Y, hY⟩ := hskip
    rw [hY]
    dsimp only
    rw [if_neg (by decide : ¬('\x7b' : Char) = ']')]
    rw [parseElems_skip _ _ (renderElems (Json.obj ms :: tl) (d + 1) ++
      ('\n' :: (jsonPad d ++ (']' :: rest)))) (skipWs_cons_of_ws _ _ (by decide))]
    rw [parseElems_render (Json.obj ms :: tl) fuel (d + 1) d rest (by simp) hrec (by
      simp only [renderV, List.length_cons, List.length_append, jsonPad,
        List.length_replicate] at hfuel ⊢
      omega)]
    rfl

theorem parse_dumps (l : List Json) (h : recordList l = true) :
    parseJson (dumps l) = some (Json.arr l) := by
  have hdata : (dumps l).data = renderV (Json.arr l) 0 := rfl
  have hlen : (dumps l).length = (renderV (Json.arr l) 0).length := rfl
  unfold parseJson
  rw [hdata, hlen]
  have := parseVal_render_arr l (renderV (Json.arr l) 0).length 0 [] h (by omega)
  rw [List.append_nil] at this
  rw [this]
  rfl

/-! ### Helper lemmas: the dumped file round-trips through the store -/

theorem renderV_arr_shape (l : List Json) :
    ∃ mid, renderV (Json.arr l) 0 = '[' :: (mid ++ [']']) := by
  cases l with
  | nil => exact ⟨[], by simp [renderV]⟩
  | cons j tl =>
    refine ⟨'\n' :: (renderElems (j :: tl) 1 ++ ['\n']), ?_⟩
    simp [renderV, jsonPad, List.append_assoc]

theorem pyStrip_first_last (a z : Char) (mid : List Char)
    (ha : pyIsSpace a = false) (hz : pyIsSpace z = false) :
    pyStrip ⟨a :: (mid ++ [z])⟩ = ⟨a :: (mid ++ [z])⟩ := by
  simp [pyStrip, List.dropWhile_cons, ha, hz, List.reverse_append, List.dropWhile_append]

theorem pyStrip_dumps (l : List Json) : pyStrip (dumps l) = dumps l ∧ dumps l ≠ "" := by
  obtain ⟨mid, hmid⟩ := renderV_arr_shape l
  have hd : dumps l = ⟨'[' :: (mid ++ [']'])⟩ := by
    rw [dumps, hmid]
  constructor
  · rw [hd]
    exact pyStrip_first_last '[' ']' mid (by decide) (by decide)
  · rw [hd]
    intro hc
    simpa using congrArg String.data hc

theorem load_dumps (l : List Json) (t : Option String) (h : recordList l = true) :
    load_messages ⟨some (dumps l), t⟩ = (⟨some (dumps l), t⟩, Json.arr l) := by
  obtain ⟨h1, h2⟩ := pyStrip_dumps l
  simp [load_messages, h1, h2, parse_dumps l h]

theorem save_messages_eq (fs : FS) (messages : List Json) :
    save_messages fs messages = ⟨some (dumps messages), none⟩ := rfl

theorem recordList_append (l1 l2 : List Json) :
    recordList (l1 ++ l2) = (recordList l1 && recordList l2) := by
  simp [recordList, List.all_append]

theorem append_dumps (l : List Json) (t : Option String) (r : Json) (h : recordList l = true) :
    append_message ⟨some (dumps l), t⟩ r = some ⟨some (dumps (l ++ [r])), none⟩ := by
  simp only [append_message, load_dumps l t h]
  rfl

theorem dumps_nil : dumps [] = "[]" := by
  rw [dumps, show renderV (Json.arr []) 0 = ['[', ']'] from by simp [renderV]]

/-! ### Helper lemmas: the history endpoint's filter -/

theorem dictGet_str (d : List (String × Json)) (k : String) :
    ∀ dflt : Json,
      d.all (fun kv => match kv.2 with | Json.str _ => true | _ => false) = true →
      (∃ s0, dflt = Json.str s0) →
      ∃ s, dictGet d k dflt = Json.str s := by
  induction d with
  | nil =>
    intro dflt _ hd
    obtain ⟨s0, rfl⟩ := hd
    exact ⟨s0, rfl⟩
  | cons kv tl ih =>
    intro dflt hall hd
    obtain ⟨k1, v⟩ := kv
    simp only [List.all_cons, Bool.and_eq_true] at hall
    simp only [dictGet]
    refine ih _ hall.2 ?_
    by_cases hk : k1 = k
    · obtain ⟨sv, rfl⟩ : ∃ sv, v = Json.str sv := by
        cases v <;> simp_all
      exact ⟨sv, by rw [if_pos hk]⟩
    · obtain ⟨s0, rfl⟩ := hd
      exact ⟨s0, by rw [if_neg hk]⟩

theorem dictGet_absent (d : List (String × Json)) (k : String) :
    ∀ dflt : Json, d.all (fun kv => kv.1 != k) = true → dictGet d k dflt = dflt := by
  induction d with
  | nil => intro dflt _; rfl
  | cons kv tl ih =>
    intro dflt hnone
    obtain ⟨k1, v⟩ := kv
    simp only [List.all_cons, Bool.and_eq_true, bne_iff_ne, ne_eq] at hnone
    simp only [dictGet, if_neg hnone.1]
    exact ih dflt (by simpa using hnone.2)

theorem filterUserMsgs_eq (msgs : List Json) (h : recordList msgs = true) :
    filterUserMsgs msgs = some (msgs.filter includeRec) := by
  induction msgs with
  | nil => rfl
  | cons m ms ih =>
    simp only [recordList, List.all_cons, Bool.and_eq_true] at h
    obtain ⟨d0, rfl⟩ : ∃ d0, m = Json.obj d0 := by
      cases m <;> simp_all [flatObj]
    have hall : d0.all (fun kv => match kv.2 with | Json.str _ => true | _ => false) = true := by
      simpa [flatObj] using h.1
    obtain ⟨s, hs⟩ := dictGet_str d0 "text" (Json.str "") hall ⟨"", rfl⟩
    have ihx := ih (by simp [recordList, h.2])
    have hinc : includeRec (Json.obj d0) = is_user_message s := by
      simp [includeRec, hs]
    simp [filterUserMsgs, textDefault, hs, isUserTextVal, ihx, List.filter_cons, hinc]

theorem get_messages_dumps (l : List Json) (t : Option String) (offset limit : Nat)
    (h : recordList l = true) :
    get_messages ⟨some (dumps l), t⟩ offset limit false =
      (⟨some (dumps l), t⟩, some ⟨l.length, offset, limit, (l.drop offset).take limit⟩) ∧
    get_messages ⟨some (dumps l), t⟩ offset limit true =
      (⟨some (dumps l), t⟩, some ⟨(l.filter includeRec).length, offset, limit,
        ((l.filter includeRec).drop offset).take limit⟩) := by
  have hload := load_dumps l t h
  constructor
  · simp [get_messages, hload]
  · simp [get_messages, hload, filterUserMsgs_eq l h]

/-! ### Helper lemmas: broadcast and sequential appends -/

theorem broadcast_attempted_eq (sendOk : Conn → Bool) (w : World) (texto : String)
    (author : Option String) (omitConn : Option Conn) (ts : String) :
    (broadcast sendOk w texto author omitConn ts).attempted = snapshotDests w.clientes omitConn := rfl

theorem broadcast_fallen_eq (sendOk : Conn → Bool) (w : World) (texto : String)
    (author : Option String) (omitConn : Option Conn) (ts : String) :
    (broadcast sendOk w texto author omitConn ts).fallen =
      (snapshotDests w.clientes omitConn).filter (fun ws => !sendOk ws) := rfl

theorem broadcast_record_eq (sendOk : Conn → Bool) (w : World) (texto : String)
    (author : Option String) (omitConn : Option Conn) (ts : String) :
    (broadcast sendOk w texto author omitConn ts).record = mkRecord texto author ts := rfl

theorem broadcast_clientes_eq (sendOk : Conn → Bool) (w : World) (texto : String)
    (author : Option String) (omitConn : Option Conn) (ts : String) :
    (broadcast sendOk w texto author omitConn ts).world.clientes =
      w.clientes.filter
        (fun p => !((broadcast sendOk w texto author omitConn ts).fallen.contains p.1)) := by
  show (if ((snapshotDests w.clientes omitConn).filter (fun ws => !sendOk ws)).isEmpty
      then w.clientes
      else w.clientes.filter (fun p =>
        !((snapshotDests w.clientes omitConn).filter (fun ws => !sendOk ws)).contains p.1)) = _
  by_cases h : ((snapshotDests w.clientes omitConn).filter (fun ws => !sendOk ws)).isEmpty
  · rw [if_pos h, broadcast_fallen_eq]
    rw [List.isEmpty_iff] at h
    rw [h]
    simp
  · rw [if_neg h, broadcast_fallen_eq]

theorem broadcast_fs_eq (sendOk : Conn → Bool) (w : World) (texto : String)
    (author : Option String) (omitConn : Option Conn) (ts : String) :
    (broadcast sendOk w texto author omitConn ts).world.fs =
      (match append_message w.fs (mkRecord texto author ts) with
       | some fs2 => fs2
       | none => w.fs) := by
  rcases happ : append_message w.fs (mkRecord texto author ts) with _ | fs2 <;>
    simp [broadcast, happ]

theorem broadcast_persisted_eq (sendOk : Conn → Bool) (w : World) (texto : String)
    (author : Option String) (omitConn : Option Conn) (ts : String) :
    (broadcast sendOk w texto author omitConn ts).persisted =
      (append_message w.fs (mkRecord texto author ts)).isSome := by
  rcases happ : append_message w.fs (mkRecord texto author ts) with _ | fs2 <;>
    simp [broadcast, happ]

theorem appendAll_dumps :
    ∀ (rs : List Json) (l0 : List Json) (t : Option String),
      recordList l0 = true → recordList rs = true →
      ∃ fs2, appendAll ⟨some (dumps l0), t⟩ rs = some fs2 ∧
        fs2.db = some (dumps (l0 ++ rs)) ∧
        load_messages fs2 = (fs2, Json.arr (l0 ++ rs)) := by
  intro rs
  induction rs with
  | nil =>
    intro l0 t h0 _
    refine ⟨⟨some (dumps l0), t⟩, rfl, by simp, ?_⟩
    simpa using load_dumps l0 t h0
  | cons r tl ih =>
    intro l0 t h0 hrs
    simp only [recordList, List.all_cons, Bool.and_eq_true] at hrs
    have happ := append_dumps l0 t r h0
    have h0r : recordList (l0 ++ [r]) = true := by
      rw [recordList_append]
      simp only [Bool.and_eq_true, h0, true_and]
      simp [recordList, hrs.1]
    obtain ⟨fs2, ha, hdb, hload⟩ := ih (l0 ++ [r]) none h0r (by simp [recordList, hrs.2])
    refine ⟨fs2, ?_, by simpa [List.append_assoc] using hdb,
      by simpa [List.append_assoc] using hload⟩
    simp only [appendAll, List.foldlM_cons, happ, Option.bind_eq_bind, Option.some_bind]
    simpa [appendAll] using ha

/-! ### Claim theorems -/

/-- C1: `save_messages` writes the complete JSON serialization of the full
record sequence to the temporary path and only then renames it over the
real store path.  After every completed save the store file holds exactly
`dumps messages`, which parses back to exactly the records passed in; in
every intermediate state of the save the real path holds either its prior
content or the full new serialization — never a partial write. -/
theorem C1_save_atomic (fs : FS) (messages : List Json) (h : recordList messages = true) :
    (save_messages fs messages).db = some (dumps messages) ∧
    parseJson (dumps messages) = some (Json.arr messages) ∧
    (∀ st ∈ save_states fs messages, st.db = fs.db ∨ st.db = some (dumps messages)) ∧
    (save_states fs messages).getLast? = some (save_messages fs messages) := by
  refine ⟨rfl, parse_dumps messages h, ?_, ?_⟩
  · intro st hst
    simp only [save_states, List.mem_append, List.mem_map, List.mem_range,
      List.mem_singleton] at hst
    rcases hst with ⟨k, _, rfl⟩ | rfl
    · left; rfl
    · right; rfl
  · simp [save_states]

/-- C1 witness: the theorem applied at a concrete prior state and a
concrete one-record list. -/
theorem C1_save_atomic_witness :
    recordList [mkRecord "hola" (some "alice") "t0"] = true ∧
    ((save_messages ⟨some "x", none⟩ [mkRecord "hola" (some "alice") "t0"]).db =
        some (dumps [mkRecord "hola" (some "alice") "t0"]) ∧
      parseJson (dumps [mkRecord "hola" (some "alice") "t0"]) =
        some (Json.arr [mkRecord "hola" (some "alice") "t0"]) ∧
      (∀ st ∈ save_states ⟨some "x", none⟩ [mkRecord "hola" (some "alice") "t0"],
        st.db = (⟨some "x", none⟩ : FS).db ∨
          st.db = some (dumps [mkRecord "hola" (some "alice") "t0"])) ∧
      (save_states ⟨some "x", none⟩ [mkRecord "hola" (some "alice") "t0"]).getLast? =
        some (save_messages ⟨some "x", none⟩ [mkRecord "hola" (some "alice") "t0"])) :=
  ⟨by decide, C1_save_atomic ⟨some "x", none⟩ [mkRecord "hola" (some "alice") "t0"] (by decide)⟩

/-- C2 counterexample: a store file holding only whitespace is unparseable
content (`json.loads` would raise on it), yet `load_messages` returns the
empty log WITHOUT overwriting the store: the file still holds `"  "`, not
the empty array, contradicting the claim that every unreadable-or-invalid
state is self-healed. -/
theorem C2_load_selfheal_cx :
    parseJson "  " = none ∧
    load_messages ⟨some "  ", none⟩ = (⟨some "  ", none⟩, Json.arr []) ∧
    (⟨some "  ", none⟩ : FS).db ≠ some (dumps []) := by
  refine ⟨rfl, rfl, ?_⟩
  rw [dumps_nil]
  decide

/-- C2 (amended): if the store file is missing/unreadable, or its content
strips to a NONEMPTY string that does not parse, `load_messages` returns
the empty log and self-heals by saving an empty array (`"[]"`); if the
content strips to the empty string, it returns the empty log WITHOUT
touching the store.  It never raises (it is a total function). -/
theorem C2_load_selfheal_amended (fs : FS) :
    (fs.db = none →
      load_messages fs = (save_messages fs [], Json.arr []) ∧
      (save_messages fs []).db = some "[]") ∧
    (∀ s, fs.db = some s → pyStrip s = "" → load_messages fs = (fs, Json.arr [])) ∧
    (∀ s, fs.db = some s → pyStrip s ≠ "" → parseJson (pyStrip s) = none →
      load_messages fs = (save_messages fs [], Json.arr []) ∧
      (save_messages fs []).db = some "[]") := by
  refine ⟨?_, ?_, ?_⟩
  · intro h
    exact ⟨by simp [load_messages, h], by simp [save_messages_eq, dumps_nil]⟩
  · intro s hdb hstrip
    simp [load_messages, hdb, hstrip]
  · intro s hdb hstrip hparse
    exact ⟨by simp [load_messages, hdb, hstrip, hparse], by simp [save_messages_eq, dumps_nil]⟩

/-- C2 (amended) witness: the missing-file case at a concrete state. -/
theorem C2_load_selfheal_amended_witness :
    load_messages ⟨none, none⟩ = (save_messages ⟨none, none⟩ [], Json.arr []) ∧
    (save_messages (⟨none, none⟩ : FS) []).db = some "[]" :=
  (C2_load_selfheal_amended ⟨none, none⟩).1 rfl

/-- C9: in the ACTIVE receive loop, a line that strips to the empty string
causes no broadcast at all: the whole world (store file and registry) is
unchanged and no send is attempted. -/
theorem C9_empty_line_suppressed (sendOk : Conn → Bool) (w : World) (ws : Conn)
    (nombre line ts : String) (h : pyStrip line = "") :
    activeStep sendOk w ws nombre line ts = (w, none) := by
  simp [activeStep, h]

/-- C9 witness: a whitespace-only line at a concrete world. -/
theorem C9_empty_line_suppressed_witness :
    pyStrip " \t " = "" ∧
    activeStep (fun _ => true) ⟨⟨some "[]", none⟩, [(1, "alice")]⟩ 1 "alice" " \t " "t0" =
      (⟨⟨some "[]", none⟩, [(1, "alice")]⟩, none) :=
  ⟨by decide, C9_empty_line_suppressed _ _ _ _ _ _ (by decide)⟩

theorem contains_false_iff (l : List Conn) (a : Conn) : l.contains a = false ↔ a ∉ l := by
  show l.elem a = false ↔ a ∉ l
  rw [Bool.eq_false_iff, ne_eq]
  exact not_congr List.elem_iff

theorem snapshotDests_none (clientes : List (Conn × String)) :
    snapshotDests clientes none = clientes.map Prod.fst := by
  simp [snapshotDests]

theorem dictSet_mem_keys (d : List (Conn × String)) (k : Conn) (v : String) :
    k ∈ (dictSet d k v).map Prod.fst := by
  by_cases h : d.any (fun p => p.1 = k)
  · simp only [dictSet, if_pos h, List.map_map, List.mem_map]
    obtain ⟨p, hp, hpk⟩ := List.any_eq_true.mp h
    refine ⟨p, hp, ?_⟩
    simp only [Function.comp_apply]
    rw [if_pos (by simpa using hpk)]
  · simp [dictSet, if_neg h]

/-- C3: when the `append_message` inside `broadcast` fails (raises), the
error is swallowed: `broadcast` still snapshots the registry and attempts
exactly the same sends as it would with any store state (in particular a
succeeding one); the store is left as it was and `persisted` is false.
`broadcast` is a total function, so no error propagates out of it. -/
theorem C3_persistence_failure_nonfatal (sendOk : Conn → Bool) (w : World) (texto : String)
    (author : Option String) (omitConn : Option Conn) (ts : String)
    (h : append_message w.fs (mkRecord texto author ts) = none) :
    (broadcast sendOk w texto author omitConn ts).attempted = snapshotDests w.clientes omitConn ∧
    (broadcast sendOk w texto author omitConn ts).persisted = false ∧
    (broadcast sendOk w texto author omitConn ts).world.fs = w.fs ∧
    (∀ w2 : World, w2.clientes = w.clientes →
      (broadcast sendOk w2 texto author omitConn ts).attempted =
        (broadcast sendOk w texto author omitConn ts).attempted ∧
      (broadcast sendOk w2 texto author omitConn ts).fallen =
        (broadcast sendOk w texto author omitConn ts).fallen ∧
      (broadcast sendOk w2 texto author omitConn ts).world.clientes =
        (broadcast sendOk w texto author omitConn ts).world.clientes) := by
  refine ⟨broadcast_attempted_eq sendOk w texto author omitConn ts, ?_, ?_, ?_⟩
  · rw [broadcast_persisted_eq, h]
    rfl
  · rw [broadcast_fs_eq, h]
  · intro w2 hw
    refine ⟨?_, ?_, ?_⟩
    · rw [broadcast_attempted_eq, broadcast_attempted_eq, hw]
    · rw [broadcast_fallen_eq, broadcast_fallen_eq, hw]
    · rw [broadcast_clientes_eq, broadcast_clientes_eq, hw, broadcast_fallen_eq,
        broadcast_fallen_eq, hw]

/-- C3 witness: a store whose file holds `42` (valid JSON, not a list)
makes the append raise; the broadcast still fans out to both registered
connections and leaves the store untouched. -/
theorem C3_persistence_failure_nonfatal_witness :
    append_message (⟨some "42", none⟩ : FS) (mkRecord "hola" (some "alice") "t0") = none ∧
    (broadcast (fun _ => true) ⟨⟨some "42", none⟩, [(1, "alice"), (2, "bob")]⟩ "hola"
        (some "alice") none "t0").attempted = snapshotDests [(1, "alice"), (2, "bob")] none ∧
    (broadcast (fun _ => true) ⟨⟨some "42", none⟩, [(1, "alice"), (2, "bob")]⟩ "hola"
        (some "alice") none "t0").persisted = false ∧
    (broadcast (fun _ => true) ⟨⟨some "42", none⟩, [(1, "alice"), (2, "bob")]⟩ "hola"
        (some "alice") none "t0").world.fs = (⟨some "42", none⟩ : FS) :=
  ⟨rfl,
    (C3_persistence_failure_nonfatal (fun _ => true) ⟨⟨some "42", none⟩, [(1, "alice"), (2, "bob")]⟩
      "hola" (some "alice") none "t0" rfl).1,
    (C3_persistence_failure_nonfatal (fun _ => true) ⟨⟨some "42", none⟩, [(1, "alice"), (2, "bob")]⟩
      "hola" (some "alice") none "t0" rfl).2.1,
    (C3_persistence_failure_nonfatal (fun _ => true) ⟨⟨some "42", none⟩, [(1, "alice"), (2, "bob")]⟩
      "hola" (some "alice") none "t0" rfl).2.2.1⟩

/-- C4: starting from a well-formed store state (the dump of a record
log `l0`), N sequential non-overlapping `append_message` calls with
records `rs` all succeed, and afterwards the store holds — and
`load_messages` returns — exactly the prior log followed by the appended
records in call order. -/
theorem C4_append_monotone (l0 rs : List Json) (t : Option String)
    (h0 : recordList l0 = true) (hrs : recordList rs = true) :
    ∃ fs2, appendAll ⟨some (dumps l0), t⟩ rs = some fs2 ∧
      fs2.db = some (dumps (l0 ++ rs)) ∧
      load_messages fs2 = (fs2, Json.arr (l0 ++ rs)) :=
  appendAll_dumps rs l0 t h0 hrs

/-- C4 witness: two appends onto an initially empty store. -/
theorem C4_append_monotone_witness :
    recordList ([] : List Json) = true ∧
    recordList [mkRecord "a" (some "u") "t1", mkRecord "b" (some "v") "t2"] = true ∧
    (∃ fs2, appendAll ⟨some (dumps []), none⟩
        [mkRecord "a" (some "u") "t1", mkRecord "b" (some "v") "t2"] = some fs2 ∧
      fs2.db = some (dumps (([] : List Json) ++
        [mkRecord "a" (some "u") "t1", mkRecord "b" (some "v") "t2"])) ∧
      load_messages fs2 = (fs2, Json.arr (([] : List Json) ++
        [mkRecord "a" (some "u") "t1", mkRecord "b" (some "v") "t2"]))) :=
  ⟨by decide, by decide,
    C4_append_monotone [] [mkRecord "a" (some "u") "t1", mkRecord "b" (some "v") "t2"] none
      (by decide) (by decide)⟩

/-- C5: on a well-formed store, the history endpoint returns `total`
equal to the record count after filtering and `items` equal to the
filtered sequence's slice from `offset` to `offset + limit` (exclusive),
clipped to the available length; an out-of-range offset yields empty
items with the total intact. -/
theorem C5_pagination (l : List Json) (t : Option String) (offset limit : Nat)
    (h : recordList l = true) (hlo : 1 ≤ limit) (hhi : limit ≤ 500) :
    get_messages ⟨some (dumps l), t⟩ offset limit false =
      (⟨some (dumps l), t⟩, some ⟨l.length, offset, limit, (l.drop offset).take limit⟩) ∧
    get_messages ⟨some (dumps l), t⟩ offset limit true =
      (⟨some (dumps l), t⟩, some ⟨(l.filter includeRec).length, offset, limit,
        ((l.filter includeRec).drop offset).take limit⟩) ∧
    (l.length ≤ offset → (l.drop offset).take limit = []) := by
  obtain ⟨ha, hb⟩ := get_messages_dumps l t offset limit h
  exact ⟨ha, hb, fun hoff => by simp [List.drop_eq_nil_of_le hoff]⟩

/-- C5 witness: the spec's example — 120 records, `offset=100, limit=50`
gives 20 items and total 120; `offset=200` gives 0 items. -/
theorem C5_pagination_witness :
    (List.replicate 120 (mkRecord "hi" (some "u") "t0")).length = 120 ∧
    (((List.replicate 120 (mkRecord "hi" (some "u") "t0")).drop 100).take 50).length = 20 ∧
    (((List.replicate 120 (mkRecord "hi" (some "u") "t0")).drop 200).take 50).length = 0 ∧
    get_messages ⟨some (dumps (List.replicate 120 (mkRecord "hi" (some "u") "t0"))), none⟩
        100 50 false =
      (⟨some (dumps (List.replicate 120 (mkRecord "hi" (some "u") "t0"))), none⟩,
        some ⟨(List.replicate 120 (mkRecord "hi" (some "u") "t0")).length, 100, 50,
          ((List.replicate 120 (mkRecord "hi" (some "u") "t0")).drop 100).take 50⟩) :=
  ⟨by decide, by decide, by decide,
    (C5_pagination (List.replicate 120 (mkRecord "hi" (some "u") "t0")) none 100 50
      (by decide) (by decide) (by decide)).1⟩

/-- C6 counterexample: the record text `"[]"` starts with `[` and
contains `]` with NO character between them, so the claim's predicate
(`^\[.*\].*` with at least one character between the brackets,
`specUserMessage`) excludes it — yet the code's `is_user_message` accepts
it, and the endpoint with `only_user=true` returns the record. -/
theorem C6_filter_cx :
    is_user_message "[]" = true ∧
    specUserMessage "[]" = false ∧
    (∃ resp, get_messages ⟨some (dumps [mkRecord "[]" (some "alice") "t0"]), none⟩ 0 50 true =
      (⟨some (dumps [mkRecord "[]" (some "alice") "t0"]), none⟩, some resp) ∧
      resp.items = [mkRecord "[]" (some "alice") "t0"] ∧ resp.total = 1) := by
  refine ⟨by decide, by decide, ?_⟩
  refine ⟨_, (get_messages_dumps [mkRecord "[]" (some "alice") "t0"] none 0 50 (by decide)).2,
    ?_, ?_⟩
  · rfl
  · rfl

/-- C6 (amended): with `only_user=true` the endpoint returns exactly the
records whose text starts with `[` and contains `]` somewhere after it —
no character is required between `[` and the first `]` (so `"[]"` is
included; the `[` itself is the one character before the first `]`). -/
theorem C6_filter_amended :
    (∀ s : String, is_user_message s = (s.data.head? == some '[' && s.data.contains ']')) ∧
    (∀ (l : List Json) (t : Option String) (offset limit : Nat), recordList l = true →
      get_messages ⟨some (dumps l), t⟩ offset limit true =
        (⟨some (dumps l), t⟩, some ⟨(l.filter includeRec).length, offset, limit,
          ((l.filter includeRec).drop offset).take limit⟩)) ∧
    (∀ (d : List (String × Json)) (s : String), dictGet d "text" (Json.str "") = Json.str s →
      includeRec (Json.obj d) = (s.data.head? == some '[' && s.data.contains ']')) := by
  have hiu : ∀ s : String, is_user_message s =
      (s.data.head? == some '[' && s.data.contains ']') := by
    intro s
    cases hd : s.data with
    | nil => simp [is_user_message, hd]
    | cons c cs => simp [is_user_message, hd]
  refine ⟨hiu, ?_, ?_⟩
  · intro l t offset limit h
    exact (get_messages_dumps l t offset limit h).2
  · intro d s hd
    simp [includeRec, hd, hiu]

/-- C6 (amended) witness: the endpoint-level clause applied to a concrete
one-record log whose text is a normal user message. -/
theorem C6_filter_amended_witness :
    recordList [mkRecord "[alice] hi" (some "alice") "t0"] = true ∧
    get_messages ⟨some (dumps [mkRecord "[alice] hi" (some "alice") "t0"]), none⟩ 0 50 true =
      (⟨some (dumps [mkRecord "[alice] hi" (some "alice") "t0"]), none⟩,
        some ⟨([mkRecord "[alice] hi" (some "alice") "t0"].filter includeRec).length, 0, 50,
          (([mkRecord "[alice] hi" (some "alice") "t0"].filter includeRec).drop 0).take 50⟩) :=
  ⟨by decide,
    C6_filter_amended.2.1 [mkRecord "[alice] hi" (some "alice") "t0"] none 0 50 (by decide)⟩

/-- C7: a broadcast's destination set is exactly the registered
connections minus the `omit` argument; the chat-message and join-notice
broadcasts pass no `omit`, so every registered connection — including the
sender and the fresh joiner — is attempted, while the leave-notice
broadcast omits the departing connection, which is never attempted. -/
theorem C7_omit_semantics (sendOk : Conn → Bool) (w : World) (texto : String)
    (author : Option String) (omitConn : Option Conn) (ts ts2 : String) (ws : Conn)
    (nombre line : String) :
    (broadcast sendOk w texto author omitConn ts).attempted =
      snapshotDests w.clientes omitConn ∧
    (∀ o, omitConn = some o → o ∉ (broadcast sendOk w texto author omitConn ts).attempted) ∧
    (∀ c, c ∈ w.clientes.map Prod.fst → omitConn ≠ some c →
      c ∈ (broadcast sendOk w texto author omitConn ts).attempted) ∧
    (pyStrip line ≠ "" → ∀ r, (activeStep sendOk w ws nombre line ts2).2 = some r →
      r.attempted = w.clientes.map Prod.fst) ∧
    ((joinStep sendOk w ws nombre ts2).2.attempted =
        (dictSet w.clientes ws nombre).map Prod.fst ∧
      ws ∈ (joinStep sendOk w ws nombre ts2).2.attempted) ∧
    (∀ r, (disconnectStep sendOk w ws ts2).2 = some r → ws ∉ r.attempted) := by
  refine ⟨broadcast_attempted_eq sendOk w texto author omitConn ts, ?_, ?_, ?_, ?_, ?_⟩
  · intro o ho
    subst ho
    rw [broadcast_attempted_eq]
    simp [snapshotDests, List.mem_filter]
  · intro c hc hno
    rw [broadcast_attempted_eq]
    cases omitConn with
    | none => simpa [snapshotDests, List.mem_filter] using hc
    | some o =>
      have : o ≠ c := fun hoc => hno (by rw [hoc])
      simp only [snapshotDests, List.mem_filter]
      refine ⟨hc, ?_⟩
      simp [Ne.symm this]
  · intro hline r hr
    simp only [activeStep, if_neg hline] at hr
    obtain rfl : broadcast sendOk w ("[" ++ nombre ++ "] " ++ pyStrip line)
        (some nombre) none ts2 = r := by
      simpa using hr
    rw [broadcast_attempted_eq, snapshotDests_none]
  · constructor
    · show (broadcast sendOk _ _ _ none _).attempted = _
      rw [broadcast_attempted_eq, snapshotDests_none]
    · show ws ∈ (broadcast sendOk _ _ _ none _).attempted
      rw [broadcast_attempted_eq, snapshotDests_none]
      exact dictSet_mem_keys w.clientes ws nombre
  · intro r hr
    rcases halias : (dictPop w.clientes ws).2 with _ | a
    · simp [disconnectStep, halias] at hr
    · simp only [disconnectStep, halias] at hr
      obtain rfl : broadcast sendOk ⟨w.fs, (dictPop w.clientes ws).1⟩
          ("🔴 " ++ a ++ " salió del chat") (some "system") (some ws) ts2 = r := by
        simpa using hr
      rw [broadcast_attempted_eq]
      simp [snapshotDests, List.mem_filter]

/-- C7 witness: two registered connections, omitting the second: the
omitted one is not attempted, the other is; joining includes the joiner;
disconnecting never attempts the departed connection. -/
theorem C7_omit_semantics_witness :
    2 ∉ (broadcast (fun _ => true) ⟨⟨some "[]", none⟩, [(1, "alice"), (2, "bob")]⟩ "hola"
      (some "alice") (some 2) "t0").attempted ∧
    1 ∈ (broadcast (fun _ => true) ⟨⟨some "[]", none⟩, [(1, "alice"), (2, "bob")]⟩ "hola"
      (some "alice") (some 2) "t0").attempted ∧
    3 ∈ (joinStep (fun _ => true) ⟨⟨some "[]", none⟩, [(1, "alice"), (2, "bob")]⟩ 3 "carol"
      "t1").2.attempted :=
  ⟨(C7_omit_semantics (fun _ => true) ⟨⟨some "[]", none⟩, [(1, "alice"), (2, "bob")]⟩ "hola"
      (some "alice") (some 2) "t0" "t1" 3 "carol" "x").2.1 2 rfl,
    (C7_omit_semantics (fun _ => true) ⟨⟨some "[]", none⟩, [(1, "alice"), (2, "bob")]⟩ "hola"
      (some "alice") (some 2) "t0" "t1" 3 "carol" "x").2.2.1 1 (by decide) (by decide),
    (C7_omit_semantics (fun _ => true) ⟨⟨some "[]", none⟩, [(1, "alice"), (2, "bob")]⟩ "hola"
      (some "alice") (some 2) "t0" "t1" 3 "carol" "x").2.2.2.2.1.2⟩

/-- C8: the destinations attempted do not depend on which sends fail (a
single failure never prevents the remaining attempts); the failed set is
exactly the attempted destinations whose send raised; after the loop the
failed connections — and only those — are popped from the registry, each
destination is attempted at most once (no retry, given distinct
handles), and the store sees only the one chat record (no leave notice
is broadcast for pruned connections). -/
theorem C8_dead_connection_pruning (sendOk : Conn → Bool) (w : World) (texto : String)
    (author : Option String) (omitConn : Option Conn) (ts : String) :
    (∀ sendOk2 : Conn → Bool,
      (broadcast sendOk2 w texto author omitConn ts).attempted =
        (broadcast sendOk w texto author omitConn ts).attempted) ∧
    (broadcast sendOk w texto author omitConn ts).fallen =
      (broadcast sendOk w texto author omitConn ts).attempted.filter (fun c => !sendOk c) ∧
    (broadcast sendOk w texto author omitConn ts).world.clientes =
      w.clientes.filter
        (fun p => !(broadcast sendOk w texto author omitConn ts).fallen.contains p.1) ∧
    (∀ p ∈ w.clientes, sendOk p.1 = true →
      p ∈ (broadcast sendOk w texto author omitConn ts).world.clientes) ∧
    (∀ c ∈ (broadcast sendOk w texto author omitConn ts).fallen,
      c ∉ (broadcast sendOk w texto author omitConn ts).world.clientes.map Prod.fst) ∧
    ((w.clientes.map Prod.fst).Nodup →
      ∀ c, (broadcast sendOk w texto author omitConn ts).attempted.count c ≤ 1) ∧
    (broadcast sendOk w texto author omitConn ts).world.fs =
      (match append_message w.fs (mkRecord texto author ts) with
       | some fs2 => fs2
       | none => w.fs) := by
  refine ⟨?_, ?_, broadcast_clientes_eq sendOk w texto author omitConn ts, ?_, ?_, ?_,
    broadcast_fs_eq sendOk w texto author omitConn ts⟩
  · intro sendOk2
    rw [broadcast_attempted_eq, broadcast_attempted_eq]
  · rw [broadcast_fallen_eq, broadcast_attempted_eq]
  · intro p hp hok
    rw [broadcast_clientes_eq, List.mem_filter]
    refine ⟨hp, ?_⟩
    have hnot : p.1 ∉ (broadcast sendOk w texto author omitConn ts).fallen := by
      rw [broadcast_fallen_eq]
      intro hmem
      have h2 := (List.mem_filter.mp hmem).2
      rw [hok] at h2
      simp at h2
    rw [(contains_false_iff _ _).mpr hnot]
    rfl
  · intro c hc
    rw [broadcast_clientes_eq]
    intro hmem
    obtain ⟨p, hpf, hpc⟩ := List.mem_map.mp hmem
    have h2 := (List.mem_filter.mp hpf).2
    have h3 : p.1 ∉ (broadcast sendOk w texto author omitConn ts).fallen := by
      rw [← contains_false_iff]
      cases hcc : (broadcast sendOk w texto author omitConn ts).fallen.contains p.1
      · rfl
      · rw [hcc] at h2
        simp at h2
    rw [hpc] at h3
    exact h3 hc
  · intro hnd c
    rw [broadcast_attempted_eq]
    have : (snapshotDests w.clientes omitConn).Nodup := by
      exact List.Nodup.filter _ hnd
    exact List.nodup_iff_count_le_one.mp this c

/-- C8 witness: with one living and one dead connection, both are
attempted, only the dead one falls and is removed, the living one stays. -/
theorem C8_dead_connection_pruning_witness :
    (broadcast (fun c => c = 1) ⟨⟨some "[]", none⟩, [(1, "alice"), (2, "bob")]⟩ "hola"
      (some "alice") none "t0").fallen =
      (broadcast (fun c => c = 1) ⟨⟨some "[]", none⟩, [(1, "alice"), (2, "bob")]⟩ "hola"
        (some "alice") none "t0").attempted.filter (fun c => !(c = 1 : Bool)) ∧
    ((1, "alice") ∈ (broadcast (fun c => c = 1) ⟨⟨some "[]", none⟩, [(1, "alice"), (2, "bob")]⟩
      "hola" (some "alice") none "t0").world.clientes) :=
  ⟨(C8_dead_connection_pruning (fun c => decide (c = 1))
      ⟨⟨some "[]", none⟩, [(1, "alice"), (2, "bob")]⟩ "hola" (some "alice") none "t0").2.1,
    (C8_dead_connection_pruning (fun c => decide (c = 1))
      ⟨⟨some "[]", none⟩, [(1, "alice"), (2, "bob")]⟩ "hola" (some "alice") none
      "t0").2.2.2.1 (1, "alice") (by decide) (by decide)⟩

/-- C10: the history endpoint never fails on records that lack a `"text"`
key: `m.get("text", "")` yields the empty string, `is_user_message ""` is
false, so with `only_user=true` such records are (successfully) excluded;
with `only_user=false` they are counted and paged like any other record. -/
theorem C10_missing_text_safe (l : List Json) (t : Option String) (offset limit : Nat)
    (h : recordList l = true) :
    (∀ d : List (String × Json), d.all (fun kv => kv.1 != "text") = true →
      dictGet d "text" (Json.str "") = Json.str "" ∧
      includeRec (Json.obj d) = false ∧ is_user_message "" = false) ∧
    get_messages ⟨some (dumps l), t⟩ offset limit false =
      (⟨some (dumps l), t⟩, some ⟨l.length, offset, limit, (l.drop offset).take limit⟩) ∧
    (∃ ms, filterUserMsgs l = some ms ∧
      get_messages ⟨some (dumps l), t⟩ offset limit true =
        (⟨some (dumps l), t⟩, some ⟨ms.length, offset, limit, (ms.drop offset).take limit⟩) ∧
      ∀ m ∈ l, ∀ d : List (String × Json), m = Json.obj d →
        d.all (fun kv => kv.1 != "text") = true → m ∉ ms) := by
  refine ⟨?_, (get_messages_dumps l t offset limit h).1, ?_⟩
  · intro d hd
    have hget := dictGet_absent d "text" (Json.str "") hd
    exact ⟨hget, by simp [includeRec, hget, is_user_message], by decide⟩
  · refine ⟨l.filter includeRec, filterUserMsgs_eq l h,
      (get_messages_dumps l t offset limit h).2, ?_⟩
    intro m hm d hmd hnone hmem
    rw [hmd] at hmem
    have hinc : includeRec (Json.obj d) = true := (List.mem_filter.mp hmem).2
    rw [show includeRec (Json.obj d) = false from by
      simp [includeRec, dictGet_absent d "text" (Json.str "") hnone, is_user_message]] at hinc
    exact Bool.false_ne_true hinc

/-- C10 witness: a log holding a record without a `"text"` key next to a
normal record; the endpoint answers with both counted under
`only_user=false`. -/
theorem C10_missing_text_safe_witness :
    recordList [Json.obj [("author", Json.str "x")], mkRecord "[u] hi" (some "u") "t0"] = true ∧
    get_messages
        ⟨some (dumps [Json.obj [("author", Json.str "x")], mkRecord "[u] hi" (some "u") "t0"]),
          none⟩ 0 50 false =
      (⟨some (dumps [Json.obj [("author", Json.str "x")], mkRecord "[u] hi" (some "u") "t0"]),
          none⟩,
        some ⟨[Json.obj [("author", Json.str "x")], mkRecord "[u] hi" (some "u") "t0"].length,
          0, 50,
          (([Json.obj [("author", Json.str "x")],
            mkRecord "[u] hi" (some "u") "t0"].drop 0)).take 50⟩) :=
  ⟨by decide,
    (C10_missing_text_safe [Json.obj [("author", Json.str "x")],
      mkRecord "[u] hi" (some "u") "t0"] none 0 50 (by decide)).2.1⟩
